import Mathlib

/-!
Shallow embedding of the consensus-validation core of the repository:
the embedded validation engine (`src/vm/embedded.rs`), the anchor and
witness model (`src/contract/anchor.rs`), and the typed-state model
(`src/contract/assignments.rs`).  External collaborators (Pedersen
commitments, bulletproof range proofs, the multi-protocol-commitment
Merkle block and proof objects, the chain-tagged wrapper and seal types)
are not part of the source tree and are modelled from the specification.
-/

namespace RgbCore

/-- Modelled from the spec: a Pedersen-style homomorphic value commitment
(external cryptographic collaborator).  A commitment is an element of an
additive group; we model the group as pairs of integers (value component,
blinding component), which is homomorphic and perfectly binding. -/
structure PedersenCommitment where
  value : Int
  blinding : Int
deriving DecidableEq, Repr

/-- Modelled from the spec: sum of a list of commitments in the
commitment group. -/
def pedersenSum (xs : List PedersenCommitment) : PedersenCommitment :=
  xs.foldr (fun a b => ⟨a.value + b.value, a.blinding + b.blinding⟩) ⟨0, 0⟩

/-- Modelled from the spec: `value::Confidential::verify_commit_sum`,
checking that two lists of homomorphic commitments have equal sums. -/
def Confidential.verify_commit_sum (xs ys : List PedersenCommitment) : Bool :=
  decide (pedersenSum xs = pedersenSum ys)

/-- Modelled from the spec: confidential fungible state, pairing a value
commitment with its bulletproof range proof; the zero-knowledge validity
of the range proof is abstracted as a boolean. -/
structure ConfidentialValue where
  commitment : PedersenCommitment
  bulletproof : Bool
deriving DecidableEq, Repr

/-- Modelled from the spec: bulletproof range-proof verification
(external cryptographic collaborator); `true` means the proof verifies. -/
def ConfidentialValue.verify_bullet_proof (c : ConfidentialValue) : Bool :=
  c.bulletproof

/-- Modelled from the spec: the fixed all-ones blinding key used for the
issued-supply commitment (`secp256k1zkp::key::ONE_KEY`). -/
def ONE_KEY : Int := 1

/-- Modelled from the spec: `value::Revealed`, a plaintext amount with its
blinding factor. -/
structure Revealed where
  value : Nat
  blinding : Int
deriving DecidableEq, Repr

/-- Modelled from the spec: `commit_conceal` turns a revealed value into
its confidential form whose commitment binds the value and blinding. -/
def Revealed.commit_conceal (r : Revealed) : ConfidentialValue :=
  ⟨⟨(r.value : Int), r.blinding⟩, true⟩

/-- Modelled from the spec: the typed assignment vector consumed by the
validation engine; the fungible category (`DiscreteFiniteField`) carries
confidential Pedersen state, the other categories carry state of other
shapes. -/
inductive AssignmentVec where
  | Declarative (xs : List Unit)
  | DiscreteFiniteField (xs : List ConfidentialValue)
  | CustomData (xs : List Nat)
deriving DecidableEq, Repr

/-- Modelled from the spec: `to_confidential_state_pedersen` collects the
confidential fungible state of every assignment; non-fungible categories
contribute no Pedersen state. -/
def AssignmentVec.to_confidential_state_pedersen :
    AssignmentVec → List ConfidentialValue
  | .DiscreteFiniteField xs => xs
  | _ => []

/-- Whether the assignment vector is the fungible
(`DiscreteFiniteField`) variant. -/
def AssignmentVec.is_discrete : AssignmentVec → Bool
  | .DiscreteFiniteField _ => true
  | _ => false

/-- Modelled from the spec: operation metadata, a table from field-type
tags to the declared values of that field. -/
abbrev Metadata : Type := List (Nat × List Nat)

/-- Modelled from the spec: `Metadata::u64(field)` returns all u64 values
declared under the given field type. -/
def Metadata.u64 (m : Metadata) (f : Nat) : List Nat :=
  (List.lookup f m).getD []

/-- Modelled from the spec: the transition-type tag of the issuance
transition (`TRANSITION_TYPE_ISSUE`, a fixed schema constant; its
numeric value is immaterial to the validation logic). -/
def TRANSITION_TYPE_ISSUE : Nat := 10

/-- Modelled from the spec: the field-type tag of the issued-supply
metadata field (`FIELD_TYPE_ISSUED_SUPPLY`, a fixed schema constant). -/
def FIELD_TYPE_ISSUED_SUPPLY : Nat := 160

/-- The embedded procedures selectable by transition type
(`script::EmbeddedProcedure`). -/
inductive EmbeddedProcedure where
  | FungibleNoInflation
  | FungibleIssue
  | NftIssue
  | ProofOfBurn
  | ProofOfReserve
  | IdentityTransfer
  | RightsSplit
deriving DecidableEq, Repr

/-- The execution context of the embedded virtual machine
(`vm::embedded::Embedded`): transition type (absent for genesis),
previous and current typed state, and the operation's metadata. -/
structure Embedded where
  transition_type : Option Nat
  previous_state : Option AssignmentVec
  current_state : Option AssignmentVec
  current_meta : Metadata

/-- `Embedded::execute`: runs an embedded procedure and pushes a single
outcome code to the stack.  We return `some code` for the pushed byte;
`none` models a process abort (the source calls
`self.current_state.as_ref().unwrap()` in the transfer branch, which
panics when the current state is absent). -/
def Embedded.execute (e : Embedded) (proc : EmbeddedProcedure) : Option Nat :=
  match proc with
  | .FungibleNoInflation =>
    match e.previous_state with
    | none =>
      if e.transition_type = none ∨
          e.transition_type = some TRANSITION_TYPE_ISSUE then
        match e.current_state with
        | none => some 6
        | some state =>
          let outputs := state.to_confidential_state_pedersen
          if outputs.any fun c => !c.verify_bullet_proof then some 2
          else
            match (e.current_meta.u64 FIELD_TYPE_ISSUED_SUPPLY).head? with
            | none => some 7
            | some supply =>
              if Confidential.verify_commit_sum
                  (outputs.map (·.commitment))
                  [(Revealed.mk supply ONE_KEY).commit_conceal.commitment]
              then some 0 else some 3
      else some 5
    | some variant =>
      match variant with
      | .DiscreteFiniteField _ =>
        let prev := variant.to_confidential_state_pedersen
        match e.current_state with
        | none => none
        | some cs =>
          let curr := cs.to_confidential_state_pedersen
          if prev.any fun p => !p.verify_bullet_proof then some 1
          else if curr.any fun c => !c.verify_bullet_proof then some 2
          else if Confidential.verify_commit_sum
              (curr.map (·.commitment)) (prev.map (·.commitment))
          then some 0 else some 3
      | _ => some 4
  | _ => some 0

/-- Transaction id (`bp::Txid`): a fixed-size content-addressed hash,
modelled as a natural number. -/
abbrev Txid : Type := Nat

/-- Contract identifier, a content-addressed hash. -/
abbrev ContractId : Type := Nat

/-- Bundle identifier, a content-addressed hash. -/
abbrev BundleId : Type := Nat

/-- Modelled from the spec: the chain-tagged wrapper `XChain<T>`, a
two-armed sum tagging a payload as belonging to the primary chain
(Bitcoin) or the alternate layer (Liquid); `xchain.rs` is not part of
the source tree. -/
inductive XChain (T : Type) where
  | bitcoin (t : T)
  | liquid (t : T)
deriving DecidableEq, Repr

/-- Modelled from the spec: `XChain::maybe_map_ref`, applying a fallible
function to the payload and keeping the chain tag. -/
def XChain.maybe_map_ref {T U : Type} (x : XChain T) (f : T → Option U) :
    Option (XChain U) :=
  match x with
  | .bitcoin t => (f t).map XChain.bitcoin
  | .liquid t => (f t).map XChain.liquid

/-- Modelled from the spec: `XChain::map_ref`, applying a function to the
payload and keeping the chain tag. -/
def XChain.map_ref {T U : Type} (x : XChain T) (f : T → U) : XChain U :=
  match x with
  | .bitcoin t => .bitcoin (f t)
  | .liquid t => .liquid (f t)

/-- Modelled from the spec: `XChain::try_map`, applying a fallible
function to the payload inside the chain tag. -/
def XChain.try_map {T U E : Type} (x : XChain T) (f : T → Except E U) :
    Except E (XChain U) :=
  match x with
  | .bitcoin t => (f t).map XChain.bitcoin
  | .liquid t => (f t).map XChain.liquid

/-- Modelled from the spec: a witness id is a chain-tagged transaction
id. -/
abbrev WitnessId : Type := XChain Txid

/-- Modelled from the spec: a tapret-style deterministic bitcoin
commitment proof (external commitment-scheme collaborator); its content
is opaque to this core. -/
structure TapretProof where
  data : Nat
deriving DecidableEq, Repr

/-- Modelled from the spec: an opret-style deterministic bitcoin
commitment proof (external commitment-scheme collaborator); its content
is opaque to this core. -/
structure OpretProof where
  data : Nat
deriving DecidableEq, Repr

/-- Modelled from the spec: `bp::dbc::Anchor<P, D>`, pairing a
transaction id with an MPC proof of representation `P` and a
deterministic-bitcoin-commitment proof `D`. -/
structure Anchor (P D : Type) where
  txid : Txid
  mpc_proof : P
  dbc_proof : D
deriving DecidableEq

/-- `AnchorSet<P>` (`contract/anchor.rs`): three mutually exclusive
shapes — tapret-only, opret-only, or dual. -/
inductive AnchorSet (P : Type) where
  | Tapret (a : Anchor P TapretProof)
  | Opret (a : Anchor P OpretProof)
  | Dual (tapret : Anchor P TapretProof) (opret : Anchor P OpretProof)
deriving DecidableEq

/-- `AnchorSet::txid`: the unambiguous witnessing transaction id, `none`
when the two dual branches disagree. -/
def AnchorSet.txid {P : Type} : AnchorSet P → Option Txid
  | .Tapret a => some a.txid
  | .Opret a => some a.txid
  | .Dual tapret opret =>
      if tapret.txid = opret.txid then some tapret.txid else none

/-- `AnchorSet::txid_unchecked`: always returns a transaction id,
preferring the tapret branch of a dual anchor. -/
def AnchorSet.txid_unchecked {P : Type} : AnchorSet P → Txid
  | .Tapret a => a.txid
  | .Opret a => a.txid
  | .Dual tapret _ => tapret.txid

/-- `AnchorSet::from_split`: recombines optional tapret and opret
branches into an anchor set; absent iff both branches are absent. -/
def AnchorSet.from_split {P : Type} (tapret : Option (Anchor P TapretProof))
    (opret : Option (Anchor P OpretProof)) : Option (AnchorSet P) :=
  match tapret, opret with
  | some tapret, some opret => some (.Dual tapret opret)
  | some tapret, none => some (.Tapret tapret)
  | none, some opret => some (.Opret opret)
  | none, none => none

/-- `AnchorSet::into_split`: splits an anchor set into its optional
tapret and opret branches. -/
def AnchorSet.into_split {P : Type} :
    AnchorSet P → Option (Anchor P TapretProof) × Option (Anchor P OpretProof)
  | .Tapret tapret => (some tapret, none)
  | .Opret opret => (none, some opret)
  | .Dual tapret opret => (some tapret, some opret)

/-- `XAnchor<P> = XChain<AnchorSet<P>>`. -/
def XAnchor (P : Type) : Type := XChain (AnchorSet P)

/-- `XAnchor::witness_id`: the chain-tagged unambiguous witnessing
transaction id of the anchor. -/
def XAnchor.witness_id {P : Type} (x : XAnchor P) : Option WitnessId :=
  XChain.maybe_map_ref x (fun set => set.txid)

/-- `XAnchor::witness_id_unchecked`: the chain-tagged witnessing
transaction id, preferring the tapret branch on a dual anchor. -/
def XAnchor.witness_id_unchecked {P : Type} (x : XAnchor P) : WitnessId :=
  XChain.map_ref x (fun set => set.txid_unchecked)

/-- Modelled from the spec: `mpc::LeafNotKnown`, the failure of
compacting a block-level proof for a contract whose leaf is absent. -/
inductive LeafNotKnown where
  | leafNotKnown
deriving DecidableEq, Repr

/-- Modelled from the spec: `mpc::InvalidProof`, the failure of expanding
a compact proof with an identity inconsistent with its committed path. -/
inductive InvalidProof where
  | invalidProof
deriving DecidableEq, Repr

/-- Modelled from the spec: `mpc::MerkleBlock`, the full multi-leaf
multi-protocol commitment, enumerating the known `(contract_id,
bundle_id)` leaves together with an opaque digest of the concealed
remainder of the tree. -/
structure MerkleBlockM where
  known : List (Nat × Nat)
  concealed : Nat
deriving DecidableEq, Repr

/-- Modelled from the spec: `mpc::MerkleProof`, the compact single-leaf
inclusion proof; its commitment path embeds the proven leaf identity and
a digest of the concealed remainder of the tree. -/
structure MerkleProofM where
  cid : Nat
  bid : Nat
  rest : Nat
deriving DecidableEq, Repr

/-- Modelled from the spec: concealing a set of leaves into the opaque
digest of the remainder of a multi-protocol commitment tree. -/
def mpcConceal (ls : List (Nat × Nat)) (seed : Nat) : Nat :=
  ls.foldr (fun l acc => Nat.pair (Nat.pair l.1 l.2) acc) seed

/-- Modelled from the spec: compacting a block-level multi-protocol
commitment into a single-contract proof; succeeds iff the contract's
leaf is present, concealing every other leaf into the proof's path. -/
def MerkleBlockM.into_merkle_proof (b : MerkleBlockM) (cid : Nat) :
    Except LeafNotKnown MerkleProofM :=
  match List.lookup cid b.known with
  | some bid =>
      .ok ⟨cid, bid, mpcConceal (b.known.filter fun l => l.1 != cid) b.concealed⟩
  | none => .error .leafNotKnown

/-- Modelled from the spec: expanding a compact proof back into a
block-level commitment, requiring the caller to re-supply the exact leaf
identity the proof certifies; fails with `InvalidProof` on mismatch. -/
def MerkleProofM.into_merkle_block (p : MerkleProofM) (cid bid : Nat) :
    Except InvalidProof MerkleBlockM :=
  if p.cid = cid ∧ p.bid = bid then .ok ⟨[(cid, bid)], p.rest⟩
  else .error .invalidProof

/-- Modelled from the spec: `bp::dbc::Anchor::into_merkle_proof`,
compacting the anchor's MPC proof while keeping its transaction id and
commitment proof. -/
def Anchor.into_merkle_proof {D : Type} (a : Anchor MerkleBlockM D)
    (cid : Nat) : Except LeafNotKnown (Anchor MerkleProofM D) :=
  (a.mpc_proof.into_merkle_proof cid).map fun p => ⟨a.txid, p, a.dbc_proof⟩

/-- Modelled from the spec: `bp::dbc::Anchor::into_merkle_block`,
expanding the anchor's MPC proof while keeping its transaction id and
commitment proof. -/
def Anchor.into_merkle_block {D : Type} (a : Anchor MerkleProofM D)
    (cid bid : Nat) : Except InvalidProof (Anchor MerkleBlockM D) :=
  (a.mpc_proof.into_merkle_block cid bid).map fun b => ⟨a.txid, b, a.dbc_proof⟩

/-- Transposition of an optional fallible result, as used by the
`map`/`transpose` pattern of the anchor conversions. -/
def optTranspose {E A : Type} : Option (Except E A) → Except E (Option A)
  | none => .ok none
  | some (.ok a) => .ok (some a)
  | some (.error e) => .error e

/-- `AnchorSet::into_merkle_proof` (block-flavored anchors): compacts
each present branch and recombines via `from_split`.  The inner `Option`
mirrors the result of `from_split` (the source unwraps it with
`expect`). -/
def AnchorSet.into_merkle_proof (s : AnchorSet MerkleBlockM) (cid : Nat) :
    Except LeafNotKnown (Option (AnchorSet MerkleProofM)) := do
  let (tapret, opret) := s.into_split
  let tapret ← optTranspose (tapret.map fun t => t.into_merkle_proof cid)
  let opret ← optTranspose (opret.map fun o => o.into_merkle_proof cid)
  pure (AnchorSet.from_split tapret opret)

/-- `AnchorSet::into_merkle_block` (proof-flavored anchors): expands each
present branch and recombines via `from_split`.  The inner `Option`
mirrors the result of `from_split` (the source unwraps it with
`expect`). -/
def AnchorSet.into_merkle_block (s : AnchorSet MerkleProofM) (cid bid : Nat) :
    Except InvalidProof (Option (AnchorSet MerkleBlockM)) := do
  let (tapret, opret) := s.into_split
  let tapret ← optTranspose (tapret.map fun t => t.into_merkle_block cid bid)
  let opret ← optTranspose (opret.map fun o => o.into_merkle_block cid bid)
  pure (AnchorSet.from_split tapret opret)

/-- Whether every present branch of a block-level anchor set knows the
leaf binding `cid` to `bid`. -/
def AnchorSet.containsLeaf (s : AnchorSet MerkleBlockM) (cid bid : Nat) : Bool :=
  match s with
  | .Tapret a => List.lookup cid a.mpc_proof.known == some bid
  | .Opret a => List.lookup cid a.mpc_proof.known == some bid
  | .Dual t o =>
      (List.lookup cid t.mpc_proof.known == some bid) &&
        (List.lookup cid o.mpc_proof.known == some bid)

/-- Whether the contract's leaf is absent from every present branch of a
block-level anchor set. -/
def AnchorSet.leafAbsent (s : AnchorSet MerkleBlockM) (cid : Nat) : Bool :=
  match s with
  | .Tapret a => List.lookup cid a.mpc_proof.known == none
  | .Opret a => List.lookup cid a.mpc_proof.known == none
  | .Dual t o =>
      (List.lookup cid t.mpc_proof.known == none) &&
        (List.lookup cid o.mpc_proof.known == none)

/-- Whether some present branch of a proof-level anchor set embeds a
committed leaf identity different from the supplied `(cid, bid)`. -/
def AnchorSet.someBranchInconsistent (s : AnchorSet MerkleProofM)
    (cid bid : Nat) : Bool :=
  match s with
  | .Tapret a => !(a.mpc_proof.cid == cid && a.mpc_proof.bid == bid)
  | .Opret a => !(a.mpc_proof.cid == cid && a.mpc_proof.bid == bid)
  | .Dual t o =>
      !(t.mpc_proof.cid == cid && t.mpc_proof.bid == bid) ||
        !(o.mpc_proof.cid == cid && o.mpc_proof.bid == bid)

/-- Modelled from the spec: `WitnessOrd`, the consensus ordering
classification of a witnessing transaction — confirmed on chain at a
height, off-chain (mempool), or invalidated; `seal.rs` is not part of
the source tree.  The spec fixes that every off-chain witness ranks
below every on-chain witness; the rank of the invalidated class is not
fixed by the spec and is placed lowest here. -/
inductive WitnessOrd where
  | invalidated
  | offChain
  | onChain (height : Nat)
deriving DecidableEq, Repr

/-- Modelled from the spec: comparison of witness ordering classes —
invalidated below off-chain below on-chain, on-chain ordered by
confirmation height. -/
def WitnessOrd.cmp : WitnessOrd → WitnessOrd → Ordering
  | .invalidated, .invalidated => .eq
  | .invalidated, _ => .lt
  | _, .invalidated => .gt
  | .offChain, .offChain => .eq
  | .offChain, .onChain _ => .lt
  | .onChain _, .offChain => .gt
  | .onChain h, .onChain k => compare h k

/-- Modelled from the spec: comparison of chain-tagged witness ids —
primary chain before alternate layer, then by transaction id. -/
def WitnessId.cmp : WitnessId → WitnessId → Ordering
  | .bitcoin x, .bitcoin y => compare x y
  | .bitcoin _, .liquid _ => .lt
  | .liquid _, .bitcoin _ => .gt
  | .liquid x, .liquid y => compare x y

/-- `WitnessAnchor` (`contract/anchor.rs`): a witness id paired with its
consensus ordering classification. -/
structure WitnessAnchor where
  witness_ord : WitnessOrd
  witness_id : WitnessId
deriving DecidableEq

/-- `WitnessAnchor::cmp` (`Ord` impl in `contract/anchor.rs`): equal
values compare equal; otherwise the ordering classification decides,
with the witness id as tie-break. -/
def WitnessAnchor.cmp (a b : WitnessAnchor) : Ordering :=
  if a = b then .eq
  else
    match WitnessOrd.cmp a.witness_ord b.witness_ord with
    | .lt => .lt
    | .gt => .gt
    | .eq => WitnessId.cmp a.witness_id b.witness_id

/-- Modelled from the spec: a seal in either confidential or revealed
form; the two forms are opaque payloads for the purposes of the
typed-state accessors (`seal.rs` is not part of the source tree). -/
inductive SealForm where
  | confidential (c : Nat)
  | revealed (r : Nat)
deriving DecidableEq, Repr

/-- Modelled from the spec: an assigned state element owns exactly one
seal and one state payload, each independently revealable; `state.rs` is
not part of the source tree. -/
structure AssignedState (Pair : Type) where
  «seal» : SealForm
  state : Pair
deriving DecidableEq, Repr

/-- Modelled from the spec: `AssignedState::revealed_seal` returns the
revealed seal, or `none` when the seal is confidential. -/
def AssignedState.revealed_seal {Pair : Type} (a : AssignedState Pair) :
    Option Nat :=
  match a.seal with
  | .confidential _ => none
  | .revealed r => some r

/-- Modelled from the spec: the seal-and-state pair type of the
declarative (void) category. -/
abbrev DeclarativePair : Type := Unit

/-- Modelled from the spec: the seal-and-state pair type of the fungible
category (a confidential or revealed amount). -/
abbrev FungiblePair : Type := ConfidentialValue

/-- Modelled from the spec: the seal-and-state pair type of the
structured category (opaque data). -/
abbrev StructuredPair : Type := Nat

/-- Modelled from the spec: the seal-and-state pair type of the
attachment category (a binary attachment reference). -/
abbrev AttachmentPair : Type := Nat

/-- `UnknownDataError`: the caller requested an index that does not
exist. -/
inductive UnknownDataError where
  | unknownData
deriving DecidableEq, Repr

/-- `TypedState` (`contract/assignments.rs`): a tagged union over the
four state categories, each an ordered collection of assigned state. -/
inductive TypedState where
  | Declarative (xs : List (AssignedState DeclarativePair))
  | Fungible (xs : List (AssignedState FungiblePair))
  | Structured (xs : List (AssignedState StructuredPair))
  | Attachment (xs : List (AssignedState AttachmentPair))
deriving DecidableEq

/-- `TypedState::len`. -/
def TypedState.len : TypedState → Nat
  | .Declarative xs => xs.length
  | .Fungible xs => xs.length
  | .Structured xs => xs.length
  | .Attachment xs => xs.length

/-- `TypedState::revealed_seal_at`: out-of-range indices fail with
`UnknownDataError`; otherwise the element's revealed seal (or `none` if
the seal is confidential) is returned.  The source takes a `u16` index;
widening it to `Nat` is lossless. -/
def TypedState.revealed_seal_at (ts : TypedState) (index : Nat) :
    Except UnknownDataError (Option Nat) :=
  match ts with
  | .Declarative xs =>
      match xs.get? index with
      | none => .error .unknownData
      | some a => .ok a.revealed_seal
  | .Fungible xs =>
      match xs.get? index with
      | none => .error .unknownData
      | some a => .ok a.revealed_seal
  | .Structured xs =>
      match xs.get? index with
      | none => .error .unknownData
      | some a => .ok a.revealed_seal
  | .Attachment xs =>
      match xs.get? index with
      | none => .error .unknownData
      | some a => .ok a.revealed_seal

/-- The seal at an index of a typed-state collection, across all four
categories. -/
def TypedState.sealAt (ts : TypedState) (index : Nat) : Option SealForm :=
  match ts with
  | .Declarative xs => (xs.get? index).map (·.seal)
  | .Fungible xs => (xs.get? index).map (·.seal)
  | .Structured xs => (xs.get? index).map (·.seal)
  | .Attachment xs => (xs.get? index).map (·.seal)

/-! ## Validation-engine theorems -/

/-- A transfer context whose previous state is fungible with an invalid
range proof but whose current state is absent. -/
def embTransferNoCurrent : Embedded :=
  ⟨some 2, some (.DiscreteFiniteField [⟨⟨5, 7⟩, false⟩]), none, []⟩

/-- C1 counterexample: in the transfer case with an invalid
previous-output range proof but an absent current state, the procedure
does not push code 1 — it aborts (the claim as stated predicts code 1
before sums are compared). -/
theorem transfer_conservation_counterexample :
    embTransferNoCurrent.execute .FungibleNoInflation = none ∧
      embTransferNoCurrent.execute .FungibleNoInflation ≠ some 1 := by
  exact ⟨rfl, by decide⟩

/-- C1 (amended): in the transfer case, provided the current state is
present, a non-fungible previous state pushes code 4; otherwise an
invalid previous-output range proof pushes code 1, else an invalid
current-output range proof pushes code 2, else code 0 is pushed iff the
homomorphic sum of current output commitments equals that of the
previous output commitments, and code 3 otherwise. -/
theorem transfer_conservation_corrected (tt : Option Nat)
    (pv cs : AssignmentVec) (meta : Metadata) :
    (pv.is_discrete = false →
      (Embedded.mk tt (some pv) (some cs) meta).execute .FungibleNoInflation
        = some 4) ∧
    (pv.is_discrete = true →
      ((∃ p ∈ pv.to_confidential_state_pedersen,
          p.verify_bullet_proof = false) →
        (Embedded.mk tt (some pv) (some cs) meta).execute .FungibleNoInflation
          = some 1) ∧
      ((∀ p ∈ pv.to_confidential_state_pedersen,
          p.verify_bullet_proof = true) →
        ((∃ c ∈ cs.to_confidential_state_pedersen,
            c.verify_bullet_proof = false) →
          (Embedded.mk tt (some pv) (some cs) meta).execute
            .FungibleNoInflation = some 2) ∧
        ((∀ c ∈ cs.to_confidential_state_pedersen,
            c.verify_bullet_proof = true) →
          ((Embedded.mk tt (some pv) (some cs) meta).execute
              .FungibleNoInflation = some 0 ↔
            Confidential.verify_commit_sum
              (cs.to_confidential_state_pedersen.map (·.commitment))
              (pv.to_confidential_state_pedersen.map (·.commitment))
              = true) ∧
          (Confidential.verify_commit_sum
              (cs.to_confidential_state_pedersen.map (·.commitment))
              (pv.to_confidential_state_pedersen.map (·.commitment))
              = false →
            (Embedded.mk tt (some pv) (some cs) meta).execute
              .FungibleNoInflation = some 3)))) := by
  constructor
  · intro h
    cases pv <;> simp_all [AssignmentVec.is_discrete, Embedded.execute]
  · intro h
    cases pv with
    | Declarative xs => simp [AssignmentVec.is_discrete] at h
    | CustomData xs => simp [AssignmentVec.is_discrete] at h
    | DiscreteFiniteField xs =>
      have hx :
          (AssignmentVec.DiscreteFiniteField xs).to_confidential_state_pedersen
            = xs := rfl
      rw [hx]
      have hexec :
          (Embedded.mk tt (some (.DiscreteFiniteField xs)) (some cs)
              meta).execute .FungibleNoInflation =
            (if xs.any fun p => !p.verify_bullet_proof then some 1
             else if cs.to_confidential_state_pedersen.any
                 fun c => !c.verify_bullet_proof then some 2
             else if Confidential.verify_commit_sum
                 (cs.to_confidential_state_pedersen.map (·.commitment))
                 (xs.map (·.commitment))
             then some 0 else some 3) := rfl
      constructor
      · intro ⟨p, hp, hbad⟩
        rw [hexec, if_pos]
        simp only [List.any_eq_true, Bool.not_eq_true']
        exact ⟨p, hp, hbad⟩
      · intro hprev
        have hnp : (xs.any fun p => !p.verify_bullet_proof) = false := by
          simp only [List.any_eq_false, Bool.not_eq_true']
          intro p hp
          simp [hprev p hp]
        constructor
        · intro ⟨c, hc, hbad⟩
          rw [hexec, if_neg (by simp [hnp]), if_pos]
          simp only [List.any_eq_true, Bool.not_eq_true']
          exact ⟨c, hc, hbad⟩
        · intro hcurr
          have hnc : (cs.to_confidential_state_pedersen.any
              fun c => !c.verify_bullet_proof) = false := by
            simp only [List.any_eq_false, Bool.not_eq_true']
            intro c hc
            simp [hcurr c hc]
          rw [hexec, if_neg (by simp [hnp]), if_neg (by simp [hnc])]
          constructor
          · constructor
            · intro h0
              by_contra hsum
              rw [if_neg (by simp_all)] at h0
              exact absurd h0 (by decide)
            · intro hsum
              rw [if_pos hsum]
          · intro hsum
            rw [if_neg (by simp [hsum])]

/-- C1 witness: the amended transfer theorem at a concrete context with
matching previous and current sums. -/
theorem transfer_conservation_witness :
    (Embedded.mk (some 2)
        (some (.DiscreteFiniteField [⟨⟨4, 9⟩, true⟩]))
        (some (.DiscreteFiniteField [⟨⟨4, 9⟩, true⟩])) []).execute
      .FungibleNoInflation = some 0 :=
  ((((transfer_conservation_corrected (some 2)
        (.DiscreteFiniteField [⟨⟨4, 9⟩, true⟩])
        (.DiscreteFiniteField [⟨⟨4, 9⟩, true⟩]) []).2
      (by decide)).2 (by decide)).2 (by decide)).1.mpr (by decide)

/-- C2: in the genesis/issuance case (no previous state, transition type
absent or the issue type), an absent current state pushes code 6; an
invalid current-output range proof pushes code 2; a missing
issued-supply metadata field pushes code 7; otherwise code 0 is pushed
iff the homomorphic sum of the output commitments equals the commitment
to the declared supply built with the fixed blinding factor, and code 3
otherwise. -/
theorem issuance_conservation (tt : Option Nat) (cso : Option AssignmentVec)
    (meta : Metadata)
    (htt : tt = none ∨ tt = some TRANSITION_TYPE_ISSUE) :
    (cso = none →
      (Embedded.mk tt none cso meta).execute .FungibleNoInflation = some 6) ∧
    (∀ cs, cso = some cs →
      ((∃ c ∈ cs.to_confidential_state_pedersen,
          c.verify_bullet_proof = false) →
        (Embedded.mk tt none cso meta).execute .FungibleNoInflation
          = some 2) ∧
      ((∀ c ∈ cs.to_confidential_state_pedersen,
          c.verify_bullet_proof = true) →
        ((meta.u64 FIELD_TYPE_ISSUED_SUPPLY).head? = none →
          (Embedded.mk tt none cso meta).execute .FungibleNoInflation
            = some 7) ∧
        (∀ s, (meta.u64 FIELD_TYPE_ISSUED_SUPPLY).head? = some s →
          ((Embedded.mk tt none cso meta).execute .FungibleNoInflation
              = some 0 ↔
            Confidential.verify_commit_sum
              (cs.to_confidential_state_pedersen.map (·.commitment))
              [(Revealed.mk s ONE_KEY).commit_conceal.commitment] = true) ∧
          (Confidential.verify_commit_sum
              (cs.to_confidential_state_pedersen.map (·.commitment))
              [(Revealed.mk s ONE_KEY).commit_conceal.commitment] = false →
            (Embedded.mk tt none cso meta).execute .FungibleNoInflation
              = some 3)))) := by
  constructor
  · intro hnone
    subst hnone
    simp only [Embedded.execute]
    rw [if_pos htt]
  · intro cs hcs
    subst hcs
    have hexec :
        (Embedded.mk tt none (some cs) meta).execute .FungibleNoInflation =
          (if cs.to_confidential_state_pedersen.any
              fun c => !c.verify_bullet_proof then some 2
           else
             match (meta.u64 FIELD_TYPE_ISSUED_SUPPLY).head? with
             | none => some 7
             | some supply =>
               if Confidential.verify_commit_sum
                   (cs.to_confidential_state_pedersen.map (·.commitment))
                   [(Revealed.mk supply ONE_KEY).commit_conceal.commitment]
               then some 0 else some 3) := by
      simp only [Embedded.execute]
      rw [if_pos htt]
    constructor
    · intro ⟨c, hc, hbad⟩
      rw [hexec, if_pos]
      simp only [List.any_eq_true, Bool.not_eq_true']
      exact ⟨c, hc, hbad⟩
    · intro hcurr
      have hnc : (cs.to_confidential_state_pedersen.any
          fun c => !c.verify_bullet_proof) = false := by
        simp only [List.any_eq_false, Bool.not_eq_true']
        intro c hc
        simp [hcurr c hc]
      rw [hexec, if_neg (by simp [hnc])]
      constructor
      · intro hsup
        rw [hsup]
      · intro s hsup
        rw [hsup]
        have hred :
            (match some s with
              | none => some 7
              | some supply =>
                if Confidential.verify_commit_sum
                    (cs.to_confidential_state_pedersen.map (·.commitment))
                    [(Revealed.mk supply ONE_KEY).commit_conceal.commitment]
                then some 0 else some 3) =
              (if Confidential.verify_commit_sum
                  (cs.to_confidential_state_pedersen.map (·.commitment))
                  [(Revealed.mk s ONE_KEY).commit_conceal.commitment]
               then some 0 else (some 3 : Option Nat)) := rfl
        rw [hred]
        constructor
        · constructor
          · intro h0
            by_contra hsum
            rw [if_neg (by simp_all)] at h0
            exact absurd h0 (by decide)
          · intro hsum
            rw [if_pos hsum]
        · intro hsum
          rw [if_neg (by simp [hsum])]

/-- C2 witness: the issuance theorem at a concrete genesis context with
one output of amount 1000 matching the declared supply. -/
theorem issuance_conservation_witness :
    (Embedded.mk none none
        (some (.DiscreteFiniteField [⟨⟨1000, 1⟩, true⟩]))
        [(FIELD_TYPE_ISSUED_SUPPLY, [1000])]).execute
      .FungibleNoInflation = some 0 :=
  (((((issuance_conservation none
          (some (.DiscreteFiniteField [⟨⟨1000, 1⟩, true⟩]))
          [(FIELD_TYPE_ISSUED_SUPPLY, [1000])] (Or.inl rfl)).2
        (.DiscreteFiniteField [⟨⟨1000, 1⟩, true⟩]) rfl).2
      (by decide)).2 1000 (by decide)).1).mpr (by decide)

/-- A transfer context whose previous state is fungible (with an empty
assignment list) but whose current state is absent. -/
def embFungiblePrevNoCurrent : Embedded :=
  ⟨some 2, some (.DiscreteFiniteField []), none, []⟩

/-- C3: at a context whose previous state is fungible but whose current
state is absent, executing `FungibleNoInflation` aborts (the source
unwraps the absent current state and panics) instead of pushing an
outcome code. -/
theorem execute_aborts_on_fungible_prev_missing_current :
    embFungiblePrevNoCurrent.execute .FungibleNoInflation = none := rfl

/-- A genesis-like context with a non-issue transition type and no
previous state. -/
def embNoPrevNonIssue : Embedded := ⟨some 99, none, none, []⟩

/-- A transfer context replaying the issue transition type on a spend
(previous state present, transition type = issue). -/
def embPrevWithIssueType : Embedded :=
  ⟨some TRANSITION_TYPE_ISSUE, some (.DiscreteFiniteField []),
    some (.DiscreteFiniteField []), []⟩

/-- C4 counterexample: code 5 is pushed at a context with NO previous
state (and a non-issue transition type), and it is not pushed at a
context that replays issuance semantics on a spend (previous state
present with the issue transition type) — contradicting the claim that
code 5 appears exactly when a previous state is present with an
inconsistent tag. -/
theorem code5_counterexample :
    (embNoPrevNonIssue.execute .FungibleNoInflation = some 5 ∧
      embNoPrevNonIssue.previous_state = none) ∧
    embPrevWithIssueType.execute .FungibleNoInflation = some 0 := by
  decide

/-- C4 (amended): the `FungibleNoInflation` procedure pushes outcome
code 5 exactly when the previous state is absent and the transition type
is present and different from the issue transition type — guarding
against a non-issuance transition that lacks the previous state it
requires. -/
theorem code5_iff_no_previous_state_nonissue (e : Embedded) :
    e.execute .FungibleNoInflation = some 5 ↔
      e.previous_state = none ∧
        ¬(e.transition_type = none ∨
            e.transition_type = some TRANSITION_TYPE_ISSUE) := by
  cases e with
  | mk tt ps cs meta =>
    cases ps with
    | none =>
      by_cases htt : tt = none ∨ tt = some TRANSITION_TYPE_ISSUE
      · constructor
        · intro h5
          exfalso
          cases cs with
          | none =>
            simp only [Embedded.execute] at h5
            rw [if_pos htt] at h5
            exact absurd h5 (by simp)
          | some state =>
            simp only [Embedded.execute] at h5
            rw [if_pos htt] at h5
            revert h5
            split
            · simp
            · split
              · simp
              · split <;> simp
        · rintro ⟨-, hcon⟩
          exact absurd htt hcon
      · simp only [Embedded.execute]
        rw [if_neg htt]
        simp [htt]
    | some variant =>
      have h5 : (Embedded.mk tt (some variant) cs meta).execute
          .FungibleNoInflation ≠ some 5 := by
        cases variant with
        | DiscreteFiniteField xs =>
          cases cs with
          | none => simp [Embedded.execute]
          | some cs2 =>
            simp only [Embedded.execute]
            split
            · simp
            · split
              · simp
              · split <;> simp
        | Declarative xs => simp [Embedded.execute]
        | CustomData xs => simp [Embedded.execute]
      constructor
      · intro h
        exact absurd h h5
      · rintro ⟨h, -⟩
        exact absurd h (by simp)

/-! ## Anchor-model theorems -/

/-- The payload carried by a chain-tagged wrapper, ignoring the tag. -/
def XChain.payload {T : Type} : XChain T → T
  | .bitcoin t => t
  | .liquid t => t

/-- Retag a value with the chain tag of an existing wrapper. -/
def XChain.tagWith {T U : Type} (x : XChain T) (u : U) : XChain U :=
  match x with
  | .bitcoin _ => .bitcoin u
  | .liquid _ => .liquid u

/-- C5: `witness_id` is defined exactly on tapret-only, opret-only, and
agreeing dual anchors, and is `none` when the dual branches disagree;
`witness_id_unchecked` is total and returns the tapret branch's
transaction id on any dual anchor. -/
theorem witness_id_characterization {P : Type} (x : XAnchor P) :
    ((XAnchor.witness_id x).isSome = true ↔
      (∃ a, XChain.payload x = AnchorSet.Tapret a) ∨
      (∃ a, XChain.payload x = AnchorSet.Opret a) ∨
      (∃ t o, XChain.payload x = AnchorSet.Dual t o ∧ t.txid = o.txid)) ∧
    (∀ t o, XChain.payload x = AnchorSet.Dual t o → t.txid ≠ o.txid →
      XAnchor.witness_id x = none) ∧
    (∀ t o, XChain.payload x = AnchorSet.Dual t o →
      XAnchor.witness_id_unchecked x = XChain.tagWith x t.txid) := by
  cases x with
  | bitcoin s =>
    cases s with
    | Tapret a =>
      refine ⟨?_, ?_, ?_⟩ <;>
        simp [XAnchor.witness_id, XAnchor.witness_id_unchecked,
          XChain.maybe_map_ref, XChain.map_ref, XChain.payload,
          AnchorSet.txid, AnchorSet.txid_unchecked]
    | Opret a =>
      refine ⟨?_, ?_, ?_⟩ <;>
        simp [XAnchor.witness_id, XAnchor.witness_id_unchecked,
          XChain.maybe_map_ref, XChain.map_ref, XChain.payload,
          AnchorSet.txid, AnchorSet.txid_unchecked]
    | Dual t o =>
      by_cases htx : t.txid = o.txid <;>
        refine ⟨?_, ?_, ?_⟩ <;>
          simp_all [XAnchor.witness_id, XAnchor.witness_id_unchecked,
            XChain.maybe_map_ref, XChain.map_ref, XChain.payload,
            XChain.tagWith, AnchorSet.txid, AnchorSet.txid_unchecked] <;>
          exact ⟨t, o, ⟨rfl, rfl⟩, htx⟩
  | liquid s =>
    cases s with
    | Tapret a =>
      refine ⟨?_, ?_, ?_⟩ <;>
        simp [XAnchor.witness_id, XAnchor.witness_id_unchecked,
          XChain.maybe_map_ref, XChain.map_ref, XChain.payload,
          AnchorSet.txid, AnchorSet.txid_unchecked]
    | Opret a =>
      refine ⟨?_, ?_, ?_⟩ <;>
        simp [XAnchor.witness_id, XAnchor.witness_id_unchecked,
          XChain.maybe_map_ref, XChain.map_ref, XChain.payload,
          AnchorSet.txid, AnchorSet.txid_unchecked]
    | Dual t o =>
      by_cases htx : t.txid = o.txid <;>
        refine ⟨?_, ?_, ?_⟩ <;>
          simp_all [XAnchor.witness_id, XAnchor.witness_id_unchecked,
            XChain.maybe_map_ref, XChain.map_ref, XChain.payload,
            XChain.tagWith, AnchorSet.txid, AnchorSet.txid_unchecked] <;>
          exact ⟨t, o, ⟨rfl, rfl⟩, htx⟩

/-- C5 witness: the characterization applied to a concrete dual anchor
with agreeing branches (its witness id is defined) and to a disagreeing
pair (its witness id is `none`, and the unchecked accessor takes the
tapret branch). -/
theorem witness_id_characterization_witness :
    (XAnchor.witness_id
        (XChain.bitcoin (AnchorSet.Dual ⟨7, 0, ⟨0⟩⟩ ⟨8, 0, ⟨0⟩⟩) :
          XAnchor Nat) = none) ∧
    (XAnchor.witness_id_unchecked
        (XChain.bitcoin (AnchorSet.Dual ⟨7, 0, ⟨0⟩⟩ ⟨8, 0, ⟨0⟩⟩) :
          XAnchor Nat) = XChain.bitcoin 7) :=
  ⟨(witness_id_characterization
      (XChain.bitcoin (AnchorSet.Dual ⟨7, 0, ⟨0⟩⟩ ⟨8, 0, ⟨0⟩⟩))).2.1
      ⟨7, 0, ⟨0⟩⟩ ⟨8, 0, ⟨0⟩⟩ rfl (by decide),
   (witness_id_characterization
      (XChain.bitcoin (AnchorSet.Dual ⟨7, 0, ⟨0⟩⟩ ⟨8, 0, ⟨0⟩⟩))).2.2
      ⟨7, 0, ⟨0⟩⟩ ⟨8, 0, ⟨0⟩⟩ rfl⟩

/-- C6: `from_split` is absent iff both inputs are absent, and maps each
present combination to exactly the corresponding anchor-set shape. -/
theorem from_split_characterization {P : Type} :
    (∀ (tapret : Option (Anchor P TapretProof))
        (opret : Option (Anchor P OpretProof)),
      AnchorSet.from_split tapret opret = none ↔
        tapret = none ∧ opret = none) ∧
    (AnchorSet.from_split (P := P) none none = none) ∧
    (∀ (t : Anchor P TapretProof),
      AnchorSet.from_split (some t) none = some (AnchorSet.Tapret t)) ∧
    (∀ (o : Anchor P OpretProof),
      AnchorSet.from_split (P := P) none (some o)
        = some (AnchorSet.Opret o)) ∧
    (∀ (t : Anchor P TapretProof) (o : Anchor P OpretProof),
      AnchorSet.from_split (some t) (some o)
        = some (AnchorSet.Dual t o)) := by
  refine ⟨?_, rfl, fun t => rfl, fun o => rfl, fun t o => rfl⟩
  intro tapret opret
  cases tapret <;> cases opret <;> simp [AnchorSet.from_split]

/-- C10: whenever the checked accessor `witness_id` returns a witness
id, the unchecked accessor `witness_id_unchecked` returns the same
one. -/
theorem witness_id_unchecked_agrees {P : Type} (x : XAnchor P)
    (w : WitnessId) (h : XAnchor.witness_id x = some w) :
    XAnchor.witness_id_unchecked x = w := by
  cases x with
  | bitcoin s =>
    cases s with
    | Tapret a =>
      simp_all [XAnchor.witness_id, XAnchor.witness_id_unchecked,
        XChain.maybe_map_ref, XChain.map_ref, AnchorSet.txid,
        AnchorSet.txid_unchecked]
    | Opret a =>
      simp_all [XAnchor.witness_id, XAnchor.witness_id_unchecked,
        XChain.maybe_map_ref, XChain.map_ref, AnchorSet.txid,
        AnchorSet.txid_unchecked]
    | Dual t o =>
      by_cases htx : t.txid = o.txid <;>
        simp_all [XAnchor.witness_id, XAnchor.witness_id_unchecked,
          XChain.maybe_map_ref, XChain.map_ref, AnchorSet.txid,
          AnchorSet.txid_unchecked]
  | liquid s =>
    cases s with
    | Tapret a =>
      simp_all [XAnchor.witness_id, XAnchor.witness_id_unchecked,
        XChain.maybe_map_ref, XChain.map_ref, AnchorSet.txid,
        AnchorSet.txid_unchecked]
    | Opret a =>
      simp_all [XAnchor.witness_id, XAnchor.witness_id_unchecked,
        XChain.maybe_map_ref, XChain.map_ref, AnchorSet.txid,
        AnchorSet.txid_unchecked]
    | Dual t o =>
      by_cases htx : t.txid = o.txid <;>
        simp_all [XAnchor.witness_id, XAnchor.witness_id_unchecked,
          XChain.maybe_map_ref, XChain.map_ref, AnchorSet.txid,
          AnchorSet.txid_unchecked]

/-- C10 witness: the agreement theorem at a concrete opret-only
anchor. -/
theorem witness_id_unchecked_agrees_witness :
    XAnchor.witness_id_unchecked
        (XChain.liquid (AnchorSet.Opret ⟨42, 0, ⟨0⟩⟩) : XAnchor Nat)
      = XChain.liquid 42 :=
  witness_id_unchecked_agrees
    (XChain.liquid (AnchorSet.Opret ⟨42, 0, ⟨0⟩⟩)) (XChain.liquid 42) rfl

/-! ## Witness-ordering theorems -/

lemma witnessOrd_cmp_eq_iff (x y : WitnessOrd) :
    WitnessOrd.cmp x y = .eq ↔ x = y := by
  cases x <;> cases y <;>
    simp [WitnessOrd.cmp, Nat.compare_eq_eq]

lemma witnessId_cmp_eq_iff (x y : WitnessId) :
    WitnessId.cmp x y = .eq ↔ x = y := by
  cases x <;> cases y <;>
    simp [WitnessId.cmp, Nat.compare_eq_eq]

lemma witnessAnchor_cmp_eq_iff (a b : WitnessAnchor) :
    WitnessAnchor.cmp a b = .eq ↔ a = b := by
  constructor
  · intro h
    by_contra hne
    rw [WitnessAnchor.cmp, if_neg hne] at h
    revert h
    split
    · simp
    · simp
    · rename_i hord
      intro h
      have ho : a.witness_ord = b.witness_ord :=
        (witnessOrd_cmp_eq_iff _ _).mp hord
      have hi : a.witness_id = b.witness_id :=
        (witnessId_cmp_eq_iff _ _).mp h
      exact hne (by cases a; cases b; simp_all)
  · intro h
    rw [WitnessAnchor.cmp, if_pos h]

/-- C7: the comparison on `WitnessAnchor` is a strict total order — for
all `a`, `b` exactly one of `a < b`, `a = b`, `a > b` holds — and an
off-chain witness anchor never compares greater than an on-chain
(confirmed-at-height) one. -/
theorem witness_anchor_strict_total_order (a b : WitnessAnchor) :
    ((WitnessAnchor.cmp a b = .lt ∧ ¬a = b ∧
        ¬WitnessAnchor.cmp a b = .gt) ∨
     (¬WitnessAnchor.cmp a b = .lt ∧ a = b ∧
        ¬WitnessAnchor.cmp a b = .gt) ∨
     (¬WitnessAnchor.cmp a b = .lt ∧ ¬a = b ∧
        WitnessAnchor.cmp a b = .gt)) ∧
    (a.witness_ord = .offChain → ∀ h, b.witness_ord = .onChain h →
      WitnessAnchor.cmp a b ≠ .gt) := by
  constructor
  · by_cases he : a = b
    · refine Or.inr (Or.inl ⟨?_, he, ?_⟩) <;>
        rw [(witnessAnchor_cmp_eq_iff a b).mpr he] <;> decide
    · have hneq : WitnessAnchor.cmp a b ≠ .eq :=
        fun hcv => he ((witnessAnchor_cmp_eq_iff a b).mp hcv)
      cases hc : WitnessAnchor.cmp a b with
      | lt => exact Or.inl ⟨rfl, he, by decide⟩
      | eq => exact absurd hc hneq
      | gt => exact Or.inr (Or.inr ⟨by decide, he, rfl⟩)
  · intro hoff h hon
    have hne : a ≠ b := by
      intro he
      rw [he, hon] at hoff
      cases hoff
    rw [WitnessAnchor.cmp, if_neg hne]
    have hlt : WitnessOrd.cmp a.witness_ord b.witness_ord = .lt := by
      rw [hoff, hon]
      rfl
    rw [hlt]
    simp

/-- C7 witness: the strict-total-order theorem applied to a concrete
off-chain anchor and a concrete on-chain anchor. -/
theorem witness_anchor_strict_total_order_witness :
    WitnessAnchor.cmp ⟨.offChain, .bitcoin 5⟩ ⟨.onChain 1, .bitcoin 5⟩
      ≠ .gt :=
  (witness_anchor_strict_total_order
      ⟨.offChain, .bitcoin 5⟩ ⟨.onChain 1, .bitcoin 5⟩).2 rfl 1 rfl

/-! ## Typed-state theorems -/

/-- C9: `revealed_seal_at` fails with `UnknownDataError` exactly on
out-of-range indices; on an in-range index it returns `Ok(None)` for a
confidential seal and `Ok(Some(seal))` for a revealed one. -/
theorem revealed_seal_at_characterization (ts : TypedState) (index : Nat) :
    (ts.revealed_seal_at index = .error .unknownData ↔ ts.len ≤ index) ∧
    (∀ c, ts.sealAt index = some (.confidential c) →
      ts.revealed_seal_at index = .ok none) ∧
    (∀ r, ts.sealAt index = some (.revealed r) →
      ts.revealed_seal_at index = .ok (some r)) := by
  cases ts <;>
    (rename_i xs
     simp only [TypedState.revealed_seal_at, TypedState.sealAt,
       TypedState.len]
     rcases hg : xs.get? index with _ | a
     · refine ⟨?_, ?_, ?_⟩
       · exact ⟨fun _ => List.get?_eq_none.mp hg, fun _ => rfl⟩
       · intro c hc
         simp at hc
       · intro r hr
         simp at hr
     · refine ⟨?_, ?_, ?_⟩
       · constructor
         · intro h
           exact Except.noConfusion h
         · intro hlen
           have hn := List.get?_eq_none.mpr hlen
           rw [hg] at hn
           exact Option.noConfusion hn
       · intro c hc
         simp at hc
         simp [AssignedState.revealed_seal, hc]
       · intro r hr
         simp at hr
         simp [AssignedState.revealed_seal, hr])

/-- C9 witness: the characterization evaluated at a one-element fungible
typed state, a revealed seal at index 0 and the out-of-range index 1. -/
theorem revealed_seal_at_characterization_witness :
    (TypedState.Fungible
        [⟨.revealed 5, ⟨⟨1, 2⟩, true⟩⟩]).revealed_seal_at 0
      = .ok (some 5) ∧
    (TypedState.Fungible
        [⟨.revealed 5, ⟨⟨1, 2⟩, true⟩⟩]).revealed_seal_at 1
      = .error .unknownData :=
  ⟨(revealed_seal_at_characterization
      (TypedState.Fungible [⟨.revealed 5, ⟨⟨1, 2⟩, true⟩⟩]) 0).2.2 5 rfl,
   (revealed_seal_at_characterization
      (TypedState.Fungible [⟨.revealed 5, ⟨⟨1, 2⟩, true⟩⟩]) 1).1.mpr
      (by decide)⟩

/-! ## Merkle proof/block conversion theorems -/

lemma anchorset_imp_tapret (a : Anchor MerkleBlockM TapretProof) (cid : Nat) :
    (AnchorSet.Tapret a).into_merkle_proof cid
      = (a.into_merkle_proof cid).map fun t => some (AnchorSet.Tapret t) := by
  cases h : a.into_merkle_proof cid <;>
    simp [AnchorSet.into_merkle_proof, AnchorSet.into_split, optTranspose, h,
      Except.map, AnchorSet.from_split, Bind.bind, Except.bind, pure,
      Except.pure]

lemma anchorset_imp_opret (a : Anchor MerkleBlockM OpretProof) (cid : Nat) :
    (AnchorSet.Opret a).into_merkle_proof cid
      = (a.into_merkle_proof cid).map fun o => some (AnchorSet.Opret o) := by
  cases h : a.into_merkle_proof cid <;>
    simp [AnchorSet.into_merkle_proof, AnchorSet.into_split, optTranspose, h,
      Except.map, AnchorSet.from_split, Bind.bind, Except.bind, pure,
      Except.pure]

lemma anchorset_imp_dual (t : Anchor MerkleBlockM TapretProof)
    (o : Anchor MerkleBlockM OpretProof) (cid : Nat) :
    (AnchorSet.Dual t o).into_merkle_proof cid
      = match t.into_merkle_proof cid, o.into_merkle_proof cid with
        | .ok t2, .ok o2 => .ok (some (AnchorSet.Dual t2 o2))
        | .error e, _ => .error e
        | .ok _, .error e => .error e := by
  cases ht : t.into_merkle_proof cid <;> cases ho : o.into_merkle_proof cid <;>
    simp [AnchorSet.into_merkle_proof, AnchorSet.into_split, optTranspose,
      ht, ho, Except.map, AnchorSet.from_split, Bind.bind, Except.bind, pure,
      Except.pure]

lemma anchorset_imb_tapret (a : Anchor MerkleProofM TapretProof)
    (cid bid : Nat) :
    (AnchorSet.Tapret a).into_merkle_block cid bid
      = (a.into_merkle_block cid bid).map fun t =>
          some (AnchorSet.Tapret t) := by
  cases h : a.into_merkle_block cid bid <;>
    simp [AnchorSet.into_merkle_block, AnchorSet.into_split, optTranspose, h,
      Except.map, AnchorSet.from_split, Bind.bind, Except.bind, pure,
      Except.pure]

lemma anchorset_imb_opret (a : Anchor MerkleProofM OpretProof)
    (cid bid : Nat) :
    (AnchorSet.Opret a).into_merkle_block cid bid
      = (a.into_merkle_block cid bid).map fun o =>
          some (AnchorSet.Opret o) := by
  cases h : a.into_merkle_block cid bid <;>
    simp [AnchorSet.into_merkle_block, AnchorSet.into_split, optTranspose, h,
      Except.map, AnchorSet.from_split, Bind.bind, Except.bind, pure,
      Except.pure]

lemma anchorset_imb_dual (t : Anchor MerkleProofM TapretProof)
    (o : Anchor MerkleProofM OpretProof) (cid bid : Nat) :
    (AnchorSet.Dual t o).into_merkle_block cid bid
      = match t.into_merkle_block cid bid, o.into_merkle_block cid bid with
        | .ok t2, .ok o2 => .ok (some (AnchorSet.Dual t2 o2))
        | .error e, _ => .error e
        | .ok _, .error e => .error e := by
  cases ht : t.into_merkle_block cid bid <;>
      cases ho : o.into_merkle_block cid bid <;>
    simp [AnchorSet.into_merkle_block, AnchorSet.into_split, optTranspose,
      ht, ho, Except.map, AnchorSet.from_split, Bind.bind, Except.bind, pure,
      Except.pure]

lemma block_imp_of_lookup (b : MerkleBlockM) (cid bid : Nat)
    (h : List.lookup cid b.known = some bid) :
    b.into_merkle_proof cid =
      .ok ⟨cid, bid,
        mpcConceal (b.known.filter fun l => l.1 != cid) b.concealed⟩ := by
  simp [MerkleBlockM.into_merkle_proof, h]

lemma block_imp_of_absent (b : MerkleBlockM) (cid : Nat)
    (h : List.lookup cid b.known = none) :
    b.into_merkle_proof cid = .error .leafNotKnown := by
  simp [MerkleBlockM.into_merkle_proof, h]

lemma proof_imb_consistent (p : MerkleProofM) :
    p.into_merkle_block p.cid p.bid = .ok ⟨[(p.cid, p.bid)], p.rest⟩ := by
  simp [MerkleProofM.into_merkle_block]

lemma proof_imb_inconsistent (p : MerkleProofM) (cid bid : Nat)
    (h : ¬(p.cid = cid ∧ p.bid = bid)) :
    p.into_merkle_block cid bid = .error .invalidProof := by
  simp [MerkleProofM.into_merkle_block, h]

lemma singleton_block_imp (cid bid rest : Nat) :
    (MerkleBlockM.mk [(cid, bid)] rest).into_merkle_proof cid
      = .ok ⟨cid, bid, rest⟩ := by
  simp [MerkleBlockM.into_merkle_proof, List.lookup, mpcConceal]

lemma anchor_imp_of_lookup {D : Type} (a : Anchor MerkleBlockM D)
    (cid bid : Nat) (h : List.lookup cid a.mpc_proof.known = some bid) :
    a.into_merkle_proof cid =
      .ok ⟨a.txid,
        ⟨cid, bid,
          mpcConceal (a.mpc_proof.known.filter fun l => l.1 != cid)
            a.mpc_proof.concealed⟩,
        a.dbc_proof⟩ := by
  simp [Anchor.into_merkle_proof, block_imp_of_lookup _ _ _ h, Except.map]

lemma anchor_imp_of_absent {D : Type} (a : Anchor MerkleBlockM D) (cid : Nat)
    (h : List.lookup cid a.mpc_proof.known = none) :
    a.into_merkle_proof cid = .error .leafNotKnown := by
  simp [Anchor.into_merkle_proof, block_imp_of_absent _ _ h, Except.map]

lemma anchor_imb_of_consistent {D : Type} (a : Anchor MerkleProofM D)
    (cid bid : Nat) (h1 : a.mpc_proof.cid = cid) (h2 : a.mpc_proof.bid = bid) :
    a.into_merkle_block cid bid
      = .ok ⟨a.txid, ⟨[(cid, bid)], a.mpc_proof.rest⟩, a.dbc_proof⟩ := by
  simp [Anchor.into_merkle_block, MerkleProofM.into_merkle_block, h1, h2,
    Except.map]

lemma anchor_imb_of_inconsistent {D : Type} (a : Anchor MerkleProofM D)
    (cid bid : Nat)
    (h : ¬(a.mpc_proof.cid = cid ∧ a.mpc_proof.bid = bid)) :
    a.into_merkle_block cid bid = .error .invalidProof := by
  simp [Anchor.into_merkle_block, MerkleProofM.into_merkle_block, h,
    Except.map]

lemma anchor_singleton_imp {D : Type} (txid cid bid rest : Nat) (d : D) :
    (Anchor.mk (P := MerkleBlockM) txid ⟨[(cid, bid)], rest⟩
        d).into_merkle_proof cid = .ok ⟨txid, ⟨cid, bid, rest⟩, d⟩ := by
  simp [Anchor.into_merkle_proof, singleton_block_imp, Except.map]

/-- C8: a block-level anchor containing the leaf `(cid, bid)` compacts
to a proof-level anchor; expanding that proof with the same pair
succeeds and yields an anchor whose compaction equals the original
compaction (idempotent round trip).  Compaction fails with
`LeafNotKnown` when the contract's leaf is absent, and expansion fails
with `InvalidProof` when the supplied identity is inconsistent with a
proof's committed path. -/
theorem anchor_merkle_roundtrip (s : AnchorSet MerkleBlockM)
    (cid bid : Nat) :
    (s.containsLeaf cid bid = true →
      ∃ p : AnchorSet MerkleProofM,
        s.into_merkle_proof cid = .ok (some p) ∧
        ∃ s2 : AnchorSet MerkleBlockM,
          p.into_merkle_block cid bid = .ok (some s2) ∧
          s2.into_merkle_proof cid = .ok (some p)) ∧
    (s.leafAbsent cid = true →
      s.into_merkle_proof cid = .error .leafNotKnown) ∧
    (∀ ps : AnchorSet MerkleProofM,
      ps.someBranchInconsistent cid bid = true →
      ps.into_merkle_block cid bid = .error .invalidProof) := by
  refine ⟨?_, ?_, ?_⟩
  · intro hc
    cases s with
    | Tapret a =>
      have hl : List.lookup cid a.mpc_proof.known = some bid := by
        simpa [AnchorSet.containsLeaf] using hc
      refine ⟨.Tapret ⟨a.txid,
          ⟨cid, bid,
            mpcConceal (a.mpc_proof.known.filter fun l => l.1 != cid)
              a.mpc_proof.concealed⟩, a.dbc_proof⟩, ?_,
        .Tapret ⟨a.txid,
          ⟨[(cid, bid)],
            mpcConceal (a.mpc_proof.known.filter fun l => l.1 != cid)
              a.mpc_proof.concealed⟩, a.dbc_proof⟩, ?_, ?_⟩
      · rw [anchorset_imp_tapret, anchor_imp_of_lookup a cid bid hl]
        rfl
      · rw [anchorset_imb_tapret, anchor_imb_of_consistent _ cid bid rfl rfl]
        rfl
      · rw [anchorset_imp_tapret, anchor_singleton_imp]
        rfl
    | Opret a =>
      have hl : List.lookup cid a.mpc_proof.known = some bid := by
        simpa [AnchorSet.containsLeaf] using hc
      refine ⟨.Opret ⟨a.txid,
          ⟨cid, bid,
            mpcConceal (a.mpc_proof.known.filter fun l => l.1 != cid)
              a.mpc_proof.concealed⟩, a.dbc_proof⟩, ?_,
        .Opret ⟨a.txid,
          ⟨[(cid, bid)],
            mpcConceal (a.mpc_proof.known.filter fun l => l.1 != cid)
              a.mpc_proof.concealed⟩, a.dbc_proof⟩, ?_, ?_⟩
      · rw [anchorset_imp_opret, anchor_imp_of_lookup a cid bid hl]
        rfl
      · rw [anchorset_imb_opret, anchor_imb_of_consistent _ cid bid rfl rfl]
        rfl
      · rw [anchorset_imp_opret, anchor_singleton_imp]
        rfl
    | Dual t o =>
      have hl := by simpa [AnchorSet.containsLeaf] using hc
      obtain ⟨hlt, hlo⟩ := hl
      refine ⟨.Dual
          ⟨t.txid,
            ⟨cid, bid,
              mpcConceal (t.mpc_proof.known.filter fun l => l.1 != cid)
                t.mpc_proof.concealed⟩, t.dbc_proof⟩
          ⟨o.txid,
            ⟨cid, bid,
              mpcConceal (o.mpc_proof.known.filter fun l => l.1 != cid)
                o.mpc_proof.concealed⟩, o.dbc_proof⟩, ?_,
        .Dual
          ⟨t.txid,
            ⟨[(cid, bid)],
              mpcConceal (t.mpc_proof.known.filter fun l => l.1 != cid)
                t.mpc_proof.concealed⟩, t.dbc_proof⟩
          ⟨o.txid,
            ⟨[(cid, bid)],
              mpcConceal (o.mpc_proof.known.filter fun l => l.1 != cid)
                o.mpc_proof.concealed⟩, o.dbc_proof⟩, ?_, ?_⟩
      · rw [anchorset_imp_dual, anchor_imp_of_lookup t cid bid hlt,
          anchor_imp_of_lookup o cid bid hlo]
      · rw [anchorset_imb_dual, anchor_imb_of_consistent _ cid bid rfl rfl,
          anchor_imb_of_consistent _ cid bid rfl rfl]
      · rw [anchorset_imp_dual, anchor_singleton_imp, anchor_singleton_imp]
  · intro ha
    cases s with
    | Tapret a =>
      have hl : List.lookup cid a.mpc_proof.known = none := by
        simpa [AnchorSet.leafAbsent] using ha
      rw [anchorset_imp_tapret, anchor_imp_of_absent a cid hl]
      rfl
    | Opret a =>
      have hl : List.lookup cid a.mpc_proof.known = none := by
        simpa [AnchorSet.leafAbsent] using ha
      rw [anchorset_imp_opret, anchor_imp_of_absent a cid hl]
      rfl
    | Dual t o =>
      have hl : List.lookup cid t.mpc_proof.known = none ∧
          List.lookup cid o.mpc_proof.known = none := by
        have h2 := ha
        simp only [AnchorSet.leafAbsent, Bool.and_eq_true, beq_iff_eq] at h2
        exact h2
      rw [anchorset_imp_dual, anchor_imp_of_absent t cid hl.1]
  · intro ps hps
    cases ps with
    | Tapret a =>
      have h : ¬(a.mpc_proof.cid = cid ∧ a.mpc_proof.bid = bid) := by
        intro ⟨h1, h2⟩
        simp [AnchorSet.someBranchInconsistent, h1, h2] at hps
      rw [anchorset_imb_tapret, anchor_imb_of_inconsistent a cid bid h]
      rfl
    | Opret a =>
      have h : ¬(a.mpc_proof.cid = cid ∧ a.mpc_proof.bid = bid) := by
        intro ⟨h1, h2⟩
        simp [AnchorSet.someBranchInconsistent, h1, h2] at hps
      rw [anchorset_imb_opret, anchor_imb_of_inconsistent a cid bid h]
      rfl
    | Dual t o =>
      by_cases htc : t.mpc_proof.cid = cid ∧ t.mpc_proof.bid = bid
      · have ho : ¬(o.mpc_proof.cid = cid ∧ o.mpc_proof.bid = bid) := by
          intro ⟨h1, h2⟩
          simp [AnchorSet.someBranchInconsistent, htc.1, htc.2, h1, h2] at hps
        rw [anchorset_imb_dual, anchor_imb_of_consistent t cid bid htc.1 htc.2,
          anchor_imb_of_inconsistent o cid bid ho]
      · rw [anchorset_imb_dual, anchor_imb_of_inconsistent t cid bid htc]

/-- C8 witness: the round-trip theorem applied to a concrete tapret-only
block-level anchor containing the leaf `(1, 2)`. -/
theorem anchor_merkle_roundtrip_witness :
    ∃ p : AnchorSet MerkleProofM,
      (AnchorSet.Tapret
          (Anchor.mk (P := MerkleBlockM) 9 ⟨[(1, 2)], 0⟩
            ⟨0⟩)).into_merkle_proof 1 = .ok (some p) ∧
      ∃ s2 : AnchorSet MerkleBlockM,
        p.into_merkle_block 1 2 = .ok (some s2) ∧
        s2.into_merkle_proof 1 = .ok (some p) :=
  (anchor_merkle_roundtrip
      (AnchorSet.Tapret (Anchor.mk (P := MerkleBlockM) 9 ⟨[(1, 2)], 0⟩ ⟨0⟩))
      1 2).1 (by decide)

end RgbCore
